import Mathlib

/-!
Shallow embedding of the C++ refactor API service (src/main.py, src/app/config.py).

The service exposes a rule engine (`run_builtin_rules`), a best-effort JSON
response extractor (fence stripping plus a two-tier parse), and an orchestrator
(`refactor`) that merges rule findings with a remote model reply.  The remote
HTTP call itself is the external collaborator boundary: it is abstracted as an
`Except String Json` argument (transport error or parsed provider payload).

Python-level semantics that matter to the embedded code are modelled
explicitly: truthiness, `dict.get` defaults, `str.strip`, `str.split` with a
maxsplit bound, `str.find` / `str.rfind`, exceptions (`TypeError`,
`AttributeError`, `HTTPException`) as an `Except` error type, and the
`json.loads` / `json.dumps` pair (numbers are modelled as integers; the
repository flows never depend on float payloads).
-/

/-- JSON values as produced by a strict parse of provider text. -/
inductive Json where
  | null : Json
  | bool : Bool → Json
  | num : Int → Json
  | str : String → Json
  | arr : List Json → Json
  | obj : List (String × Json) → Json

/-- Python exceptions that can escape the request handler. -/
inductive PyErr where
  | http : Nat → String → PyErr
  | typeError : String → PyErr
  | attributeError : String → PyErr

/-- Python truthiness on JSON values (`bool(x)`). -/
def pyTruthy : Json → Bool
  | .null => false
  | .bool b => b
  | .num n => n != 0
  | .str s => s != ""
  | .arr l => !l.isEmpty
  | .obj l => !l.isEmpty

/-- Python truthiness of an optional string (for example `os.getenv` results). -/
def optStrTruthy : Option String → Bool
  | none => false
  | some s => s != ""

/-- Python `a or b` on JSON values: first operand if truthy, else the second. -/
def pyOr (a b : Json) : Json := if pyTruthy a then a else b

/-- Python `dict.get(k)`: the stored value, or `none` when the key is absent. -/
def pyGet : List (String × Json) → String → Option Json
  | [], _ => none
  | (k', v) :: t, k => if k' = k then some v else pyGet t k

/-- Python `d[k] = v` on an insertion-ordered dict rendered as an association
list: an existing key keeps its position and has its value replaced. -/
def insertKey : List (String × Json) → String → Json → List (String × Json)
  | [], k, v => [(k, v)]
  | (k', v') :: t, k, v => if k' = k then (k, v) :: t else (k', v') :: insertKey t k v

/-- Whitespace recognised by Python `str.strip()` (ASCII portion). -/
def pyWs (c : Char) : Bool :=
  c = ' ' || c = '\t' || c = '\n' || c = '\r' || c = '\x0b' || c = '\x0c'

/-- Whitespace recognised by the JSON grammar (`json.loads`). -/
def jsonWs (c : Char) : Bool :=
  c = ' ' || c = '\t' || c = '\n' || c = '\r'

/-- Drop characters satisfying `p` from both ends of a character list. -/
def stripEnds (p : Char → Bool) (s : List Char) : List Char :=
  ((s.dropWhile p).reverse.dropWhile p).reverse

/-- Python `content.strip()` on the character level. -/
def pyStripC (s : List Char) : List Char := stripEnds pyWs s

/-- Boolean prefix test on character lists. -/
def prefixB : List Char → List Char → Bool
  | [], _ => true
  | _ :: _, [] => false
  | p :: ps, x :: xs => if x = p then prefixB ps xs else false

/-- Index of the first occurrence of `c`, as Python `str.find` (absent = `none`). -/
def findCharIdx (c : Char) : List Char → Option Nat
  | [] => none
  | x :: t => if x = c then some 0 else (findCharIdx c t).map (· + 1)

/-- Index of the last occurrence of `c`, as Python `str.rfind` (absent = `none`). -/
def rfindCharIdx (c : Char) (s : List Char) : Option Nat :=
  (findCharIdx c s.reverse).map (fun i => s.length - 1 - i)

/-- Index of the first occurrence of the substring `pat`, as Python `str.find`. -/
def findSubIdx (pat : List Char) : List Char → Option Nat
  | [] => if prefixB pat [] then some 0 else none
  | x :: t =>
    if prefixB pat (x :: t) then some 0
    else (findSubIdx pat t).map (· + 1)

/-- Whether `pat` occurs as a contiguous substring. -/
def containsSubB (pat : List Char) : List Char → Bool
  | [] => prefixB pat []
  | x :: t => prefixB pat (x :: t) || containsSubB pat t

/-- Python `s.split(sep, maxsplit)` for a non-empty separator. -/
def splitSep (pat : List Char) : Nat → List Char → List (List Char)
  | 0, s => [s]
  | m + 1, s =>
    match findSubIdx pat s with
    | none => [s]
    | some i => s.take i :: splitSep pat m (s.drop (i + pat.length))

/-- Hexadecimal digit test. -/
def isHexDigitB (c : Char) : Bool :=
  ('0' ≤ c && c ≤ '9') || ('a' ≤ c && c ≤ 'f') || ('A' ≤ c && c ≤ 'F')

/-- Numeric value of a hexadecimal digit character. -/
def hexVal (c : Char) : Nat :=
  if '0' ≤ c && c ≤ '9' then c.toNat - 48
  else if 'a' ≤ c && c ≤ 'f' then c.toNat - 87
  else if 'A' ≤ c && c ≤ 'F' then c.toNat - 55
  else 0

/-- Characters of a decoded JSON string body; consumes the closing quote.
Escape sequences follow the JSON grammar; raw control characters are rejected
as in the strict `json.loads` decoder. -/
def parseStr : List Char → Option (List Char × List Char)
  | [] => none
  | c :: r =>
    if c = '"' then some ([], r)
    else if c = '\\' then
      match r with
      | [] => none
      | e :: r2 =>
        if e = '"' then (parseStr r2).map (fun p => ('"' :: p.1, p.2))
        else if e = '\\' then (parseStr r2).map (fun p => ('\\' :: p.1, p.2))
        else if e = '/' then (parseStr r2).map (fun p => ('/' :: p.1, p.2))
        else if e = 'b' then (parseStr r2).map (fun p => ('\x08' :: p.1, p.2))
        else if e = 'f' then (parseStr r2).map (fun p => ('\x0c' :: p.1, p.2))
        else if e = 'n' then (parseStr r2).map (fun p => ('\n' :: p.1, p.2))
        else if e = 'r' then (parseStr r2).map (fun p => ('\r' :: p.1, p.2))
        else if e = 't' then (parseStr r2).map (fun p => ('\t' :: p.1, p.2))
        else if e = 'u' then
          match r2 with
          | h1 :: h2 :: h3 :: h4 :: r3 =>
            if isHexDigitB h1 && isHexDigitB h2 && isHexDigitB h3 && isHexDigitB h4 then
              let v := 4096 * hexVal h1 + 256 * hexVal h2 + 16 * hexVal h3 + hexVal h4
              (parseStr r3).map (fun p => (Char.ofNat v :: p.1, p.2))
            else none
          | _ => none
        else none
    else if c.toNat < 32 then none
    else (parseStr r).map (fun p => (c :: p.1, p.2))

/-- Digits of a JSON integer literal: a non-empty digit run with no leading
zero (except the single digit `0`), as in the JSON number grammar. -/
def parseIntDigits (s : List Char) : Option (List Char × List Char) :=
  match s.takeWhile Char.isDigit, s.dropWhile Char.isDigit with
  | [], _ => none
  | [d], rest => some ([d], rest)
  | d :: ds, rest => if d = '0' then none else some (d :: ds, rest)

/-- Natural number denoted by a digit list. -/
def digitsToNat (ds : List Char) : Nat :=
  ds.foldl (fun acc c => 10 * acc + (c.toNat - 48)) 0

/-- Skip JSON whitespace. -/
def skipWs (s : List Char) : List Char := s.dropWhile jsonWs

mutual

/-- Fuelled recursive-descent JSON value parser, mirroring the strict
`json.loads` grammar on objects, arrays, strings, integers, and the three
literals.  Float literals are not modelled (the embedded flows never parse
them); the fuel passed by `json_loadsC` always suffices for its input. -/
def parseVal : Nat → List Char → Option (Json × List Char)
  | 0, _ => none
  | f + 1, s =>
    match skipWs s with
    | [] => none
    | c :: r =>
      if c = '{' then
        match skipWs r with
        | '}' :: r2 => some (.obj [], r2)
        | r2 => parseFields f r2 []
      else if c = '[' then
        match skipWs r with
        | ']' :: r2 => some (.arr [], r2)
        | r2 => parseElems f r2 []
      else if c = '"' then
        (parseStr r).map (fun p => (.str (String.mk p.1), p.2))
      else if c = 't' then
        match r with
        | 'r' :: 'u' :: 'e' :: r2 => some (.bool true, r2)
        | _ => none
      else if c = 'f' then
        match r with
        | 'a' :: 'l' :: 's' :: 'e' :: r2 => some (.bool false, r2)
        | _ => none
      else if c = 'n' then
        match r with
        | 'u' :: 'l' :: 'l' :: r2 => some (.null, r2)
        | _ => none
      else if c = '-' then
        match parseIntDigits r with
        | some (ds, rest) => some (.num (-(digitsToNat ds : Int)), rest)
        | none => none
      else if c.isDigit then
        match parseIntDigits (c :: r) with
        | some (ds, rest) => some (.num (digitsToNat ds : Int), rest)
        | none => none
      else none

/-- Fuelled parser for the members of a JSON object, after the opening brace
(and not at an immediate closing brace). -/
def parseFields : Nat → List Char → List (String × Json) → Option (Json × List Char)
  | 0, _, _ => none
  | f + 1, s, acc =>
    match s with
    | '"' :: r =>
      match parseStr r with
      | some (k, r1) =>
        match skipWs r1 with
        | ':' :: r2 =>
          match parseVal f r2 with
          | some (v, r3) =>
            match skipWs r3 with
            | ',' :: r4 => parseFields f (skipWs r4) (insertKey acc (String.mk k) v)
            | '}' :: r4 => some (.obj (insertKey acc (String.mk k) v), r4)
            | _ => none
          | none => none
        | _ => none
      | none => none
    | _ => none

/-- Fuelled parser for the elements of a JSON array, after the opening
bracket (and not at an immediate closing bracket). -/
def parseElems : Nat → List Char → List Json → Option (Json × List Char)
  | 0, _, _ => none
  | f + 1, s, acc =>
    match parseVal f s with
    | some (v, r) =>
      match skipWs r with
      | ',' :: r2 => parseElems f (skipWs r2) (acc ++ [v])
      | ']' :: r2 => some (.arr (acc ++ [v]), r2)
      | _ => none
    | none => none

end

/-- Parse of a whitespace-trimmed document: the value must consume the whole
input.  Factoring through the trimmed text makes `json.loads` insensitivity to
surrounding whitespace definitional. -/
def loadsTrimmed (t : List Char) : Option Json :=
  match parseVal (t.length + 1) t with
  | some (v, []) => some v
  | _ => none

/-- Python `json.loads` on a character list: trim surrounding JSON whitespace,
then require a full-input parse. -/
def json_loadsC (s : List Char) : Option Json := loadsTrimmed (stripEnds jsonWs s)

/-- Python `json.loads` on a string. -/
def json_loads (s : String) : Option Json := json_loadsC s.data

/-- Serialization of one string character under `json.dumps` with its default
`ensure_ascii=True` (shortcut escapes, `\uXXXX` for other control or
non-ASCII characters, surrogate pairs beyond the basic plane). -/
def dumpChar (c : Char) : List Char :=
  if c = '"' then ['\\', '"']
  else if c = '\\' then ['\\', '\\']
  else if c = '\n' then ['\\', 'n']
  else if c = '\r' then ['\\', 'r']
  else if c = '\t' then ['\\', 't']
  else if c = '\x08' then ['\\', 'b']
  else if c = '\x0c' then ['\\', 'f']
  else if 32 ≤ c.toNat && c.toNat < 127 then [c]
  else if c.toNat < 65536 then
    '\\' :: 'u' :: (Nat.toDigits 16 c.toNat).reverse.takeD 4 '0' |>.reverse
  else
    let v := c.toNat - 65536
    let hi := 55296 + v / 1024
    let lo := 56320 + v % 1024
    ('\\' :: 'u' :: ((Nat.toDigits 16 hi).reverse.takeD 4 '0').reverse) ++
      ('\\' :: 'u' :: ((Nat.toDigits 16 lo).reverse.takeD 4 '0').reverse)

/-- Python `json.dumps` of a string value. -/
def dumpStr (s : String) : String :=
  String.mk ('"' :: (s.data.flatMap dumpChar) ++ ['"'])

/-- Python `json.dumps` with default separators. -/
def json_dumps : Json → String
  | .null => "null"
  | .bool true => "true"
  | .bool false => "false"
  | .num n => toString n
  | .str s => dumpStr s
  | .arr xs => "[" ++ String.intercalate ", " (xs.attach.map (fun x => json_dumps x.1)) ++ "]"
  | .obj fs =>
      "\x7b" ++ String.intercalate ", "
        (fs.attach.map (fun f => dumpStr f.1.1 ++ ": " ++ json_dumps f.1.2)) ++ "\x7d"
decreasing_by
  · have h := List.sizeOf_lt_of_mem x.2
    simp only [Json.arr.sizeOf_spec]
    omega
  · have h1 := List.sizeOf_lt_of_mem f.2
    have h2 : sizeOf f.1.2 < sizeOf f.1 := by
      cases hf : f.1 with | mk a b => simp [hf]
    simp only [Json.obj.sizeOf_spec]
    omega

/-- Regex atoms sufficient for the five rule patterns in `run_builtin_rules`:
literal characters, single-character classes, greedy unbounded and bounded
class repetition, and alternation over literal strings.  Group captures are
irrelevant here (only match spans are used). -/
inductive Tok where
  | lit : Char → Tok
  | one : (Char → Bool) → Tok
  | many : (Char → Bool) → Tok
  | upto : (Char → Bool) → Nat → Tok
  | alts : List (List Char) → Tok

/-- Strip a literal alternative from the front of the input. -/
def stripPrefixChars : List Char → List Char → Option (List Char)
  | [], s => some s
  | _ :: _, [] => none
  | p :: ps, x :: s => if x = p then stripPrefixChars ps s else none

/-- Greedy backtracking repetition: consume as many `p`-characters as
possible, then retry the continuation `k` on ever shorter extents, longest
first, as the Python `re` engine does for a greedy star. -/
def matchManyK (p : Char → Bool) (k : List Char → Option (List Char)) :
    List Char → Option (List Char)
  | [] => k []
  | x :: r =>
    if p x then
      match matchManyK p k r with
      | some v => some v
      | none => k (x :: r)
    else k (x :: r)

/-- Greedy backtracking repetition bounded by `n`, longest first. -/
def matchUptoK (p : Char → Bool) (k : List Char → Option (List Char)) :
    Nat → List Char → Option (List Char)
  | _, [] => k []
  | 0, x :: r => k (x :: r)
  | n + 1, x :: r =>
    if p x then
      match matchUptoK p k n r with
      | some v => some v
      | none => k (x :: r)
    else k (x :: r)

/-- Alternation over literal strings, tried left to right, backtracking into
the continuation. -/
def matchAltsK (k : List Char → Option (List Char)) (s : List Char) :
    List (List Char) → Option (List Char)
  | [] => none
  | l :: rest =>
    match stripPrefixChars l s with
    | some s' =>
      match k s' with
      | some v => some v
      | none => matchAltsK k s rest
    | none => matchAltsK k s rest

/-- Backtracking matcher for a token sequence anchored at the start of the
input, with the leftmost-preference semantics of the Python `re` engine:
greedy repetition tries the longest extent first, alternation tries
alternatives left to right, and failures backtrack.  Returns the suffix left
after the match. -/
def matchToks : List Tok → List Char → Option (List Char)
  | [], s => some s
  | .lit c :: ts, s =>
    match s with
    | [] => none
    | x :: r => if x = c then matchToks ts r else none
  | .one p :: ts, s =>
    match s with
    | [] => none
    | x :: r => if p x then matchToks ts r else none
  | .many p :: ts, s => matchManyK p (matchToks ts) s
  | .upto p n :: ts, s => matchUptoK p (matchToks ts) n s
  | .alts ls :: ts, s => matchAltsK (matchToks ts) s ls

/-- Match a token sequence at position `i` of `s`; returns the end position
of the match (as `re.Match.end()`). -/
def matchAtPos (toks : List Tok) (s : List Char) (i : Nat) : Option Nat :=
  (matchToks toks (s.drop i)).map (fun rem => i + ((s.drop i).length - rem.length))

/-- Scan of `re.finditer`: successive non-overlapping leftmost matches as
(start, end) spans, resuming after each match (or one position further for an
empty match).  The fuel argument only forces structural termination; the
initial fuel `s.length + 1` always dominates the number of remaining scan
positions, so the scan never stops early. -/
def findFrom (toks : List Tok) (s : List Char) : Nat → Nat → List (Nat × Nat)
  | 0, _ => []
  | fuel + 1, pos =>
    if pos ≤ s.length then
      match matchAtPos toks s pos with
      | some e =>
        (pos, e) ::
          (if pos < e then findFrom toks s fuel e else findFrom toks s fuel (pos + 1))
      | none => findFrom toks s fuel (pos + 1)
    else []

/-- Python `re.finditer(pattern, s)` as a list of (start, end) spans. -/
def finditer (toks : List Tok) (s : List Char) : List (Nat × Nat) :=
  findFrom toks s (s.length + 1) 0

/-- Truthiness of `re.search(pattern, s)`. -/
def reSearch (toks : List Tok) (s : List Char) : Bool :=
  !(finditer toks s).isEmpty

/-- Character class `\s` of the Python `re` module (ASCII portion). -/
def reWsChar (c : Char) : Bool :=
  c = ' ' || c = '\t' || c = '\n' || c = '\r' || c = '\x0b' || c = '\x0c'

/-- Character class `\w` of the Python `re` module (ASCII portion). -/
def reWordChar (c : Char) : Bool :=
  c.isAlpha || c.isDigit || c = '_'

/-- Literal token run for a plain string fragment of a pattern. -/
def lits (s : String) : List Tok := s.data.map Tok.lit

/-- Pattern of the `prefer_range_for` rule:
`for\s*\(\s*(int|size_t)\s+\w+\s*=\s*0\s*;\s*\w+\s*<\s*\w+\.size\(\)\s*;`. -/
def reRangeFor : List Tok :=
  lits "for" ++ [.many reWsChar, .lit '(', .many reWsChar,
    .alts ["int".data, "size_t".data], .one reWsChar, .many reWsChar,
    .one reWordChar, .many reWordChar, .many reWsChar, .lit '=', .many reWsChar,
    .lit '0', .many reWsChar, .lit ';', .many reWsChar,
    .one reWordChar, .many reWordChar, .many reWsChar, .lit '<', .many reWsChar,
    .one reWordChar, .many reWordChar, .lit '.'] ++ lits "size" ++
    [.lit '(', .lit ')', .many reWsChar, .lit ';']

/-- Pattern of the `nested_loops` rule (compiled with `re.DOTALL`):
`for\s*\(.*\)\s*\{[^{}]{0,120}for\s*\(`. -/
def reNested : List Tok :=
  lits "for" ++ [.many reWsChar, .lit '(', .many (fun _ => true), .lit ')',
    .many reWsChar, .lit '{', .upto (fun c => !(c = '{' || c = '}')) 120] ++
    lits "for" ++ [.many reWsChar, .lit '(']

/-- Pattern of the `prefer_unordered_map_for_count` rule (with `re.DOTALL`):
`for\s*\(.*\)\s*\{[^{}]{0,200}(?:map|std::map)<`. -/
def reMapCount : List Tok :=
  lits "for" ++ [.many reWsChar, .lit '(', .many (fun _ => true), .lit ')',
    .many reWsChar, .lit '{', .upto (fun c => !(c = '{' || c = '}')) 200,
    .alts ["map".data, "std::map".data], .lit '<']

/-- First pattern of the `vector_reserve` rule:
`std::vector<[^>]+>\s+\w+\s*;`. -/
def reVecDecl : List Tok :=
  lits "std::vector<" ++ [.one (fun c => !(c = '>')), .many (fun c => !(c = '>')),
    .lit '>', .one reWsChar, .many reWsChar, .one reWordChar, .many reWordChar,
    .many reWsChar, .lit ';']

/-- Second pattern of the `vector_reserve` rule (with `re.DOTALL`):
`for\s*\(.*\)\s*\{[^{}]{0,180}\.push_back\(`. -/
def rePushLoop : List Tok :=
  lits "for" ++ [.many reWsChar, .lit '(', .many (fun _ => true), .lit ')',
    .many reWsChar, .lit '{', .upto (fun c => !(c = '{' || c = '}')) 180,
    .lit '.'] ++ lits "push_back" ++ [.lit '(']

/-- Pattern of the `emplace_back` rule:
`\.push_back\s*\(\s*(?:std::)?make_pair\s*\(`. -/
def reEmplace : List Tok :=
  [.lit '.'] ++ lits "push_back" ++ [.many reWsChar, .lit '(', .many reWsChar,
    .alts ["std::".data, []]] ++ lits "make_pair" ++ [.many reWsChar, .lit '(']

/-- Request-level rule configuration (`RuleConfig` pydantic model), with its
field defaults. -/
structure RuleConfig where
  enable_dsa_rules : Bool := true
  enable_style_rules : Bool := true
  max_nested_loops : Int := 2
  prefer_unordered_map_for_count : Bool := true
  suggest_reserve_on_vectors : Bool := true
  suggest_emplace_back : Bool := true
  prefer_range_for : Bool := true

/-- One finding of the rule engine (`RuleResult` pydantic model). -/
structure RuleResult where
  rule : String
  message : String
  line : Option Nat := none
  severity : String := "info"

/-- Python helper `_line_no`: 1 plus the count of newline characters before
the match start offset. -/
def _line_no (code : String) (match_start : Nat) : Nat :=
  ((code.data.take match_start).count '\n') + 1

/-- Message of the `prefer_range_for` rule. -/
def msgRangeFor : String := "Use range-based for when iterating entire container."

/-- Message of the `nested_loops` rule. -/
def msgNested : String :=
  "Nested loop detected; if O(n^2) consider hashing, prefix sums, or two-pointer."

/-- Message of the `prefer_unordered_map_for_count` rule. -/
def msgMapCount : String :=
  "Counting frequencies? Prefer std::unordered_map for average O(1) access."

/-- Message of the `vector_reserve` rule. -/
def msgReserve : String :=
  "Vector push_back in loop: call v.reserve(n) when size known to avoid re-allocations."

/-- Message of the `emplace_back` rule. -/
def msgEmplace : String := "Use emplace_back instead of push_back(make_pair(...))."

/-- The rule engine `run_builtin_rules`: five pattern detectors evaluated in
a fixed order, each gated by its configuration toggles, appending findings in
scan order. -/
def run_builtin_rules (code : String) (cfg : RuleConfig) : List RuleResult :=
  (if cfg.enable_style_rules && cfg.prefer_range_for then
    (finditer reRangeFor code.data).map (fun m =>
      { rule := "prefer_range_for", message := msgRangeFor,
        line := some (_line_no code m.1) })
  else []) ++
  (if cfg.enable_dsa_rules && decide (0 < cfg.max_nested_loops) then
    (finditer reNested code.data).map (fun m =>
      { rule := "nested_loops", message := msgNested,
        line := some (_line_no code m.1), severity := "warning" })
  else []) ++
  (if cfg.enable_dsa_rules && cfg.prefer_unordered_map_for_count then
    (finditer reMapCount code.data).map (fun m =>
      { rule := "prefer_unordered_map_for_count", message := msgMapCount,
        line := some (_line_no code m.1) })
  else []) ++
  (if cfg.enable_style_rules && cfg.suggest_reserve_on_vectors then
    (if reSearch reVecDecl code.data && reSearch rePushLoop code.data then
      [{ rule := "vector_reserve", message := msgReserve }]
    else [])
  else []) ++
  (if cfg.enable_style_rules && cfg.suggest_emplace_back then
    (finditer reEmplace code.data).map (fun m =>
      { rule := "emplace_back", message := msgEmplace,
        line := some (_line_no code m.1) })
  else [])

/-- The fence marker characters. -/
def fenceC : List Char := ['`', '`', '`']

/-- Cleaning step of the response extractor: strip surrounding whitespace and,
when the text starts with a fence marker, take the first fenced block and drop
its language-tag line.  The Python original guards the block indexing with a
broad `except` that leaves the stripped text unchanged, mirrored by the
fall-through arms. -/
def cleanedC (content : List Char) : List Char :=
  let t := pyStripC content
  if prefixB fenceC t then
    match splitSep fenceC 2 t with
    | _ :: block :: _ =>
      if block.contains '\n' then
        match splitSep ['\n'] 1 block with
        | _ :: post :: _ => post
        | _ => t
      else block
    | _ => t
  else t

/-- Two-tier parse of the cleaned model text: a direct `json.loads`, then, on
failure, `json.loads` of the inclusive slice from the first `{` to the last
`}` provided the first `{` comes before the last `}`. -/
def parseModelC (t : List Char) : Option Json :=
  match json_loadsC t with
  | some p => some p
  | none =>
    match findCharIdx '{' t, rfindCharIdx '}' t with
    | some s, some e => if s < e then json_loadsC ((t.drop s).take (e + 1 - s)) else none
    | _, _ => none

/-- The response extractor: cleaning followed by the two-tier parse. -/
def extract_model_json (content : String) : Option Json :=
  parseModelC (cleanedC content.data)

/-- Reading of the generated text out of the provider payload (`main.py`
lines 201-209): probe `choices[0].message.content` then `choices[0].text`
under a broad `except`, then fall back to the `content` / `text` fields or
the serialized payload.  A non-dict payload raises `AttributeError` at the
fallback line, which is outside the `try`. -/
def get_content (data : Json) : Except PyErr Json :=
  match data with
  | .obj fs =>
    let fromChoices : Option Json :=
      match pyGet fs "choices" with
      | some (.arr (c0 :: _)) =>
        match c0 with
        | .obj c0f =>
          match (pyGet c0f "message").getD (.obj []) with
          | .obj mf =>
            match pyGet mf "content" with
            | some v => if pyTruthy v then some v else pyGet c0f "text"
            | none => pyGet c0f "text"
          | _ => none
        | _ => none
      | _ => none
    match fromChoices with
    | some v =>
      if pyTruthy v then .ok v
      else .ok (pyOr ((pyGet fs "content").getD .null)
        (pyOr ((pyGet fs "text").getD .null) (.str (json_dumps data))))
    | none => .ok (pyOr ((pyGet fs "content").getD .null)
        (pyOr ((pyGet fs "text").getD .null) (.str (json_dumps data))))
  | _ => .error (.attributeError "object has no attribute get")

/-- Response payload of one `/refactor` request.  Each optional field models
presence of the corresponding key in the returned dict: the three return
sites of the handler carry different key sets. -/
structure RefactorResponse where
  ok : Bool
  error : Option String := none
  suggestions : Option (List Json) := none
  optimized_code : Option Json := none
  rules_findings : List RuleResult
  model_text : Option String := none
  raw : Option Json := none

/-- Rendering of a finding into the merged suggestion list:
`[rule:<id>] <message>`. -/
def renderFinding (f : RuleResult) : String :=
  "[rule:" ++ f.rule ++ "] " ++ f.message

/-- Post-call phase of the handler: strip and parse the model text, then
either return the diagnostic parse-failure payload (for a failed or falsy
parse), raise `AttributeError` for a truthy non-dict parse or a non-string
content, raise `TypeError` when the provided `suggestions` value is not a
list, or merge and return the success payload. -/
def model_phase (code : String) (findings : List RuleResult) (data : Json)
    (contentJson : Json) : Except PyErr RefactorResponse :=
  match contentJson with
  | .str content =>
    match parseModelC (cleanedC content.data) with
    | none =>
      .ok { ok := false, error := some "Model JSON parse failed",
            rules_findings := findings,
            model_text := some (String.mk (cleanedC content.data)),
            raw := some data }
    | some parsed =>
      if pyTruthy parsed then
        match parsed with
        | .obj fs =>
          match (pyGet fs "suggestions").getD (.arr []) with
          | .arr ss =>
            .ok { ok := true,
                  suggestions := some
                    ((findings.map (fun f => Json.str (renderFinding f))) ++ ss),
                  optimized_code := some
                    (pyOr ((pyGet fs "optimized_code").getD (.str "")) (.str code)),
                  rules_findings := findings }
          | _ => .error (.typeError "can only concatenate list to list")
        | _ => .error (.attributeError "object has no attribute get")
      else
        .ok { ok := false, error := some "Model JSON parse failed",
              rules_findings := findings,
              model_text := some (String.mk (cleanedC content.data)),
              raw := some data }
  | _ => .error (.attributeError "object has no attribute strip")

/-- The `/refactor` handler.  The outbound HTTP exchange is abstracted as
`call`: a transport failure or non-success upstream status arrives as
`.error detail` (re-raised as a 502 `HTTPException`), a successful exchange
arrives as the parsed provider payload.  The prompt construction of the
original affects only the outbound request, not the response, and is not
modelled. -/
def refactor (code : String) (cfg : RuleConfig) (apiKey : Option String)
    (call : Except String Json) : Except PyErr RefactorResponse :=
  let findings := run_builtin_rules code cfg
  if optStrTruthy apiKey then
    match call with
    | .error detail => .error (.http 502 detail)
    | .ok data =>
      match get_content data with
      | .error e => .error e
      | .ok contentJson => model_phase code findings data contentJson
  else
    .ok { ok := false, error := some "OPENROUTER_API_KEY missing in .env",
          suggestions := some (findings.map (fun f => Json.str (renderFinding f))),
          optimized_code := some (.str code), rules_findings := findings }

/-- Import-time body of `src/app/config.py`: read the three environment
variables and raise `ValueError` when the API key is absent or empty. -/
def config_module_init (key url model : Option String) :
    Except String (Option String × Option String × Option String) :=
  if optStrTruthy key then .ok (key, url, model)
  else .error "⚠️ OPENROUTER_API_KEY missing in .env"

/-- Import of `src/main.py`: line 7 runs `from app import config`, so process
startup succeeds exactly when the config module body does. -/
def main_module_import (key url model : Option String) : Except String Unit :=
  (config_module_init key url model).map (fun _ => ())

/-! ### General lemmas about the embedded primitives -/

/-- A list whose first and last characters fail `p` is unchanged by
`stripEnds p`. -/
lemma stripEnds_eq_self (p : Char → Bool) (s : List Char)
    (h1 : ∀ c, s.head? = some c → p c = false)
    (h2 : ∀ c, s.getLast? = some c → p c = false) :
    stripEnds p s = s := by
  cases s with
  | nil => rfl
  | cons a t =>
    have ha : p a = false := h1 a rfl
    have hdw : (a :: t).dropWhile p = a :: t := by
      simp [List.dropWhile_cons, ha]
    unfold stripEnds
    rw [hdw]
    obtain ⟨c, hc⟩ : ∃ c, (a :: t).getLast? = some c := by
      cases t with
      | nil => exact ⟨a, rfl⟩
      | cons b u => exact ⟨(b :: u).getLast (by simp), by simp [List.getLast?_eq_getLast]⟩
    have hrevhead : (a :: t).reverse.head? = some c := by
      rw [List.head?_reverse]; exact hc
    have hcp : p c = false := h2 c hc
    cases hrev : (a :: t).reverse with
    | nil => simp at hrev
    | cons b rb =>
      have hbp : p b = false := by
        have hb : b = c := by rw [hrev] at hrevhead; simpa using hrevhead
        rw [hb]; exact hcp
      rw [List.dropWhile_cons, hbp]
      simp only [Bool.false_eq_true, if_false]
      rw [← hrev, List.reverse_reverse]

/-- Appending a `p`-character does not change a two-sided strip. -/
lemma stripEnds_append_single (p : Char → Bool) (s : List Char) (c : Char)
    (hc : p c = true) : stripEnds p (s ++ [c]) = stripEnds p s := by
  unfold stripEnds
  rw [List.dropWhile_append]
  by_cases hs : s.dropWhile p = []
  · simp [hs, List.dropWhile_cons, hc]
  · have hne : (s.dropWhile p).isEmpty = false := by simpa [List.isEmpty_iff] using hs
    simp only [hne, Bool.false_eq_true, if_false]
    rw [List.reverse_append]
    simp [List.dropWhile_cons, hc]

/-- Trailing newline invariance of `json.loads`. -/
lemma json_loadsC_append_nl (s : List Char) :
    json_loadsC (s ++ ['\n']) = json_loadsC s := by
  unfold json_loadsC
  rw [stripEnds_append_single jsonWs s '\n' (by decide)]

/-- First-occurrence search through an occurrence-free prefix. -/
lemma findCharIdx_append (c : Char) (l₁ l₂ : List Char) (h : c ∉ l₁) :
    findCharIdx c (l₁ ++ l₂) = (findCharIdx c l₂).map (· + l₁.length) := by
  induction l₁ with
  | nil => simp [Option.map_id']
  | cons x t ih =>
    have hx : ¬(x = c) := by rintro rfl; exact h (List.mem_cons_self x t)
    rw [List.cons_append, findCharIdx, if_neg hx, ih (fun hm => h (List.mem_cons_of_mem x hm))]
    cases findCharIdx c l₂ with
    | none => simp
    | some v => simp; omega

/-- A literal list is a prefix of itself followed by anything. -/
lemma prefixB_append_self (l t : List Char) : prefixB l (l ++ t) = true := by
  induction l with
  | nil => rfl
  | cons x xs ih => simp [prefixB, ih]

/-- A prefix test only inspects as many characters as the pattern has. -/
lemma prefixB_append_left (pat l t : List Char) (h : pat.length ≤ l.length) :
    prefixB pat (l ++ t) = prefixB pat l := by
  induction pat generalizing l with
  | nil => rfl
  | cons p ps ih =>
    cases l with
    | nil => simp at h
    | cons x xs =>
      simp only [List.cons_append, prefixB]
      by_cases hx : x = p
      · simp only [hx, if_true]
        exact ih xs (by simpa using h)
      · simp [hx]

/-- Single-character substring search through an occurrence-free prefix. -/
lemma findSubIdx_single_append (c : Char) (l₁ l₂ : List Char) (h : c ∉ l₁) :
    findSubIdx [c] (l₁ ++ c :: l₂) = some l₁.length := by
  induction l₁ with
  | nil => simp [findSubIdx, prefixB]
  | cons x t ih =>
    have hx : ¬(x = c) := by rintro rfl; exact h (List.mem_cons_self x t)
    rw [List.cons_append, findSubIdx]
    have hp : prefixB [c] (x :: (t ++ c :: l₂)) = false := by simp [prefixB, hx]
    rw [hp]
    simp only [Bool.false_eq_true, if_false]
    rw [ih (fun hm => h (List.mem_cons_of_mem x hm))]
    simp

/-- A short list ending in a newline cannot start a fence, even continued by
further text. -/
lemma prefixB_fence_short (l t : List Char) (hne : l ≠ [])
    (hlen : l.length < 3) (hlast : l.getLast? = some '\n') :
    prefixB fenceC (l ++ t) = false := by
  match l, hne with
  | [c], _ =>
    have hc : c = '\n' := by simpa using hlast
    subst hc
    simp [fenceC, prefixB]
  | [c, d], _ =>
    have hd : d = '\n' := by simpa using hlast
    subst hd
    by_cases hc : c = '`' <;> simp [fenceC, prefixB, hc]
  | c :: d :: e :: u, _ => simp at hlen; omega

/-- Position of the closing fence: in `body ++ fence` with no fence occurrence
inside `body` and `body` ending in a newline, the first fence occurrence is
exactly at the end of `body`. -/
lemma findSubIdx_fence_append (body : List Char)
    (h : containsSubB fenceC body = false) (hlast : body.getLast? = some '\n') :
    findSubIdx fenceC (body ++ fenceC) = some body.length := by
  induction body with
  | nil => simp at hlast
  | cons x t ih =>
    have hsplit : prefixB fenceC (x :: t) = false ∧ containsSubB fenceC t = false := by
      have := h
      rw [containsSubB] at this
      exact ⟨by revert this; cases prefixB fenceC (x :: t) <;> simp,
             by revert this; cases containsSubB fenceC t <;> simp⟩
    have hpref : prefixB fenceC ((x :: t) ++ fenceC) = false := by
      by_cases hlen : 3 ≤ (x :: t).length
      · rw [prefixB_append_left fenceC (x :: t) fenceC (by simpa [fenceC] using hlen)]
        exact hsplit.1
      · exact prefixB_fence_short (x :: t) fenceC (by simp) (by omega) hlast
    cases t with
    | nil =>
      have hx : x = '\n' := by simpa using hlast
      subst hx
      rw [List.cons_append, findSubIdx]
      rw [List.cons_append] at hpref
      rw [hpref]
      simp only [Bool.false_eq_true, if_false]
      have : findSubIdx fenceC ([] ++ fenceC) = some 0 := by decide
      simpa using this
    | cons y u =>
      have hlast' : (y :: u).getLast? = some '\n' := by
        rw [List.getLast?_cons_cons] at hlast
        exact hlast
      rw [List.cons_append, findSubIdx]
      rw [List.cons_append] at hpref
      rw [hpref]
      simp only [Bool.false_eq_true, if_false]
      rw [ih hsplit.2 hlast']
      simp

/-! ### Lemmas about the handler -/

/-- Case sweep over every successful return of the handler: the findings
field always carries the rule-engine output, the parse-failure payload is the
only one without `optimized_code`, the degraded payload carries the input
code, and a present `optimized_code` is either the input code or a truthy
model value. -/
lemma refactor_ok_inv (code : String) (cfg : RuleConfig) (key : Option String)
    (call : Except String Json) (r : RefactorResponse)
    (h : refactor code cfg key call = .ok r) :
    r.rules_findings = run_builtin_rules code cfg ∧
    (r.optimized_code = none → r.error = some "Model JSON parse failed") ∧
    (optStrTruthy key = false → r.optimized_code = some (.str code)) ∧
    (∀ j, r.optimized_code = some j → j = .str code ∨ pyTruthy j = true) := by
  unfold refactor at h
  by_cases hk : optStrTruthy key
  · rw [if_pos hk] at h
    cases call with
    | error d => simp at h
    | ok data =>
      simp only at h
      cases hgc : get_content data with
      | error e => rw [hgc] at h; simp at h
      | ok cj =>
        rw [hgc] at h
        simp only at h
        cases cj with
        | str content =>
          simp only [model_phase] at h
          cases hp : parseModelC (cleanedC content.data) with
          | none =>
            rw [hp] at h
            simp only [Except.ok.injEq] at h
            subst h
            refine ⟨rfl, fun _ => rfl, fun hk' => absurd hk (by simp [hk']), ?_⟩
            intro j hj; simp at hj
          | some parsed =>
            rw [hp] at h
            simp only at h
            by_cases hpt : pyTruthy parsed
            · rw [if_pos hpt] at h
              cases parsed with
              | obj fs =>
                simp only [] at h
                cases hsg : (pyGet fs "suggestions").getD (.arr []) with
                | arr ss =>
                  rw [hsg] at h
                  simp only [Except.ok.injEq] at h
                  subst h
                  refine ⟨rfl, by simp, fun hk' => absurd hk (by simp [hk']), ?_⟩
                  intro j hj
                  simp only [Option.some.injEq] at hj
                  subst hj
                  unfold pyOr
                  by_cases ht : pyTruthy ((pyGet fs "optimized_code").getD (.str ""))
                  · rw [if_pos ht]; exact Or.inr ht
                  · rw [if_neg ht]; exact Or.inl rfl
                | null => rw [hsg] at h; simp at h
                | bool b => rw [hsg] at h; simp at h
                | num n => rw [hsg] at h; simp at h
                | str s => rw [hsg] at h; simp at h
                | obj l => rw [hsg] at h; simp at h
              | null => simp at h
              | bool b => simp at h
              | num n => simp at h
              | str s => simp at h
              | arr l => simp at h
            · rw [if_neg hpt] at h
              simp only [Except.ok.injEq] at h
              subst h
              refine ⟨rfl, fun _ => rfl, fun hk' => absurd hk (by simp [hk']), ?_⟩
              intro j hj; simp at hj
        | null => simp [model_phase] at h
        | bool b => simp [model_phase] at h
        | num n => simp [model_phase] at h
        | arr l => simp [model_phase] at h
        | obj l => simp [model_phase] at h
  · rw [if_neg hk] at h
    simp only [Except.ok.injEq] at h
    subst h
    exact ⟨rfl, by simp, fun _ => rfl, fun j hj => Or.inl (by simpa using hj.symm)⟩

/-! ### Claim theorems -/

/-- Claim C1 (code bug): the claim says an absent model-provider API key does
not abort process startup.  In the code, `src/app/config.py` raises
`ValueError` at import time when the key is missing or empty, and line 7 of
`src/main.py` imports that module, so startup aborts before the degraded
no-credential path of the handler could ever run. -/
theorem C1_startup_aborts_without_key (url model : Option String) :
    main_module_import none url model =
      .error "⚠️ OPENROUTER_API_KEY missing in .env" ∧
    main_module_import (some "") url model =
      .error "⚠️ OPENROUTER_API_KEY missing in .env" :=
  ⟨rfl, rfl⟩

/-- Claim C2: with an empty or missing credential, the handler short-circuits
to a handled success (`.ok`, hence HTTP 200): `ok = false`, the explanatory
error string, `suggestions` exactly the rule findings rendered as
`[rule:<id>] <message>` strings and nothing else, `optimized_code` the input
code unchanged, and the rule findings included. -/
theorem C2_no_credential_short_circuit (code : String) (cfg : RuleConfig)
    (key : Option String) (call : Except String Json)
    (hk : key = none ∨ key = some "") :
    refactor code cfg key call = .ok
      { ok := false,
        error := some "OPENROUTER_API_KEY missing in .env",
        suggestions := some ((run_builtin_rules code cfg).map (fun f =>
          Json.str ("[rule:" ++ f.rule ++ "] " ++ f.message))),
        optimized_code := some (.str code),
        rules_findings := run_builtin_rules code cfg,
        model_text := none, raw := none } := by
  rcases hk with h | h <;> subst h <;> simp [refactor, optStrTruthy, renderFinding]

/-- Witness for C2: the spec scenario input with no credential yields the
degraded payload with no findings and the input echoed back. -/
theorem C2_witness :
    refactor "int main()\x7breturn 0;\x7d" {} none (.error "") = .ok
      { ok := false,
        error := some "OPENROUTER_API_KEY missing in .env",
        suggestions := some [],
        optimized_code := some (.str "int main()\x7breturn 0;\x7d"),
        rules_findings := [],
        model_text := none, raw := none } :=
  C2_no_credential_short_circuit "int main()\x7breturn 0;\x7d" {} none (.error "")
    (Or.inl rfl)

/-- Response of the extraction-failure path at the C3 counterexample input. -/
def c3data : Json := .obj [("content", .str "no json at all")]

/-- The parse-failure payload returned for `c3data`. -/
def c3resp : RefactorResponse :=
  { ok := false, error := some "Model JSON parse failed",
    rules_findings := [], model_text := some "no json at all", raw := some c3data }

/-- Counterexample for C3: on the extraction-failure path the returned
payload has no `optimized_code` key at all (`src/main.py` line 233), so the
claimed invariant that every terminal result carries `optimized_code` fails. -/
theorem C3_counterexample :
    refactor "int x;" {} (some "k") (.ok c3data) = .ok c3resp ∧
    c3resp.optimized_code = none :=
  ⟨rfl, rfl⟩

/-- Claim C4: every terminal payload the handler returns carries exactly the
rule-engine output in `rules_findings`, on the no-credential, the
extraction-failure and the success path alike. -/
theorem C4_rules_findings_invariant (code : String) (cfg : RuleConfig)
    (key : Option String) (call : Except String Json) (r : RefactorResponse)
    (h : refactor code cfg key call = .ok r) :
    r.rules_findings = run_builtin_rules code cfg :=
  (refactor_ok_inv code cfg key call r h).1

/-- Witness for C4 at a concrete degraded request. -/
theorem C4_witness :
    ({ ok := false, error := some "OPENROUTER_API_KEY missing in .env",
       suggestions := some [], optimized_code := some (.str "int x;"),
       rules_findings := [] } : RefactorResponse).rules_findings =
      run_builtin_rules "int x;" {} :=
  C4_rules_findings_invariant "int x;" {} none (.error "down") _ rfl

/-- With a truthy key and a string content, the handler reduces to the
post-call phase on the rule-engine findings. -/
lemma refactor_content_phase (code : String) (cfg : RuleConfig)
    (key : Option String) (data : Json) (raw : String)
    (hk : optStrTruthy key = true)
    (hc : get_content data = .ok (.str raw)) :
    refactor code cfg key (.ok data) =
      model_phase code (run_builtin_rules code cfg) data (.str raw) := by
  unfold refactor
  rw [if_pos hk]
  simp only
  rw [hc]

/-- Nonempty association lists are truthy objects. -/
lemma pyTruthy_obj_of_ne_nil (fs : List (String × Json)) (h : fs ≠ []) :
    pyTruthy (.obj fs) = true := by
  cases fs with
  | nil => exact absurd rfl h
  | cons a t => rfl

/-- Success shape of the post-call phase: a truthy parsed object whose
`suggestions` read yields a list produces the merged payload. -/
lemma model_phase_success (code : String) (findings : List RuleResult)
    (data : Json) (raw : String) (fs : List (String × Json)) (ss : List Json)
    (hp : parseModelC (cleanedC raw.data) = some (.obj fs))
    (hne : fs ≠ [])
    (hsg : (pyGet fs "suggestions").getD (.arr []) = .arr ss) :
    model_phase code findings data (.str raw) = .ok
      { ok := true,
        suggestions := some ((findings.map (fun f => Json.str (renderFinding f))) ++ ss),
        optimized_code := some (pyOr ((pyGet fs "optimized_code").getD (.str "")) (.str code)),
        rules_findings := findings } := by
  simp only [model_phase]
  rw [hp]
  simp only [pyTruthy_obj_of_ne_nil fs hne, if_true]
  rw [hsg]

/-- Failure shape of the post-call phase for a falsy parse result. -/
lemma model_phase_falsy (code : String) (findings : List RuleResult)
    (data : Json) (raw : String) (p : Json)
    (hp : parseModelC (cleanedC raw.data) = some p)
    (hpt : pyTruthy p = false) :
    model_phase code findings data (.str raw) = .ok
      { ok := false, error := some "Model JSON parse failed",
        rules_findings := findings,
        model_text := some (String.mk (cleanedC raw.data)), raw := some data } := by
  simp only [model_phase]
  rw [hp]
  simp only [hpt, Bool.false_eq_true, if_false]

/-- Type-error shape of the post-call phase: a truthy parsed object whose
`suggestions` value is present and not a list makes the merge raise. -/
lemma model_phase_type_error (code : String) (findings : List RuleResult)
    (data : Json) (raw : String) (fs : List (String × Json)) (v : Json)
    (hp : parseModelC (cleanedC raw.data) = some (.obj fs))
    (hne : fs ≠ [])
    (hsg : pyGet fs "suggestions" = some v)
    (hv : ∀ ss, v ≠ .arr ss) :
    model_phase code findings data (.str raw) =
      .error (.typeError "can only concatenate list to list") := by
  simp only [model_phase]
  rw [hp]
  simp only [pyTruthy_obj_of_ne_nil fs hne, if_true]
  rw [hsg]
  cases v with
  | arr ss => exact absurd rfl (hv ss)
  | null => rfl
  | bool b => rfl
  | num n => rfl
  | str s => rfl
  | obj l => rfl

/-- Type-error shape of the post-call phase, keyed on the defaulted read: a
truthy parsed object whose defaulted `suggestions` read is not a list makes
the merge raise. -/
lemma model_phase_getD_fail (code : String) (findings : List RuleResult)
    (data : Json) (raw : String) (fs : List (String × Json)) (v : Json)
    (hp : parseModelC (cleanedC raw.data) = some (.obj fs))
    (hne : fs ≠ [])
    (hsg : (pyGet fs "suggestions").getD (.arr []) = v)
    (hv : ∀ ss, v ≠ .arr ss) :
    model_phase code findings data (.str raw) =
      .error (.typeError "can only concatenate list to list") := by
  simp only [model_phase]
  rw [hp]
  simp only [pyTruthy_obj_of_ne_nil fs hne, if_true]
  rw [hsg]
  cases v with
  | arr ss => exact absurd rfl (hv ss)
  | null => rfl
  | bool b => rfl
  | num n => rfl
  | str s => rfl
  | obj l => rfl

/-- Amended C3: `optimized_code` is present on the no-credential and success
paths — the input code when degraded; on the genuine success path it is
exactly the model-provided `optimized_code` value (defaulted to the empty
string when absent) with fallback to the original input code when that value
is falsy — but the extraction-failure payload is the one terminal result
that omits the key (its `error` field identifies it). -/
theorem C3_optimized_code_presence (code : String) (cfg : RuleConfig)
    (key : Option String) (call : Except String Json) (r : RefactorResponse)
    (h : refactor code cfg key call = .ok r) :
    (r.optimized_code = none → r.error = some "Model JSON parse failed") ∧
    (optStrTruthy key = false → r.optimized_code = some (.str code)) ∧
    (∀ data raw fs, optStrTruthy key = true → call = .ok data →
      get_content data = .ok (.str raw) →
      extract_model_json raw = some (.obj fs) → fs ≠ [] →
      r.optimized_code = some
        (pyOr ((pyGet fs "optimized_code").getD (.str "")) (.str code))) ∧
    (∀ j, r.optimized_code = some j → j = .str code ∨ pyTruthy j = true) := by
  have hinv := refactor_ok_inv code cfg key call r h
  refine ⟨hinv.2.1, hinv.2.2.1, ?_, hinv.2.2.2⟩
  intro data raw fs hk hcall hgc hp hne
  subst hcall
  have hp' : parseModelC (cleanedC raw.data) = some (.obj fs) := hp
  rw [refactor_content_phase code cfg key data raw hk hgc] at h
  by_cases harr : ∃ ss, (pyGet fs "suggestions").getD (.arr []) = Json.arr ss
  · obtain ⟨ss, hsg⟩ := harr
    rw [model_phase_success code (run_builtin_rules code cfg) data raw fs ss
      hp' hne hsg] at h
    simp only [Except.ok.injEq] at h
    subst h
    rfl
  · push_neg at harr
    rw [model_phase_getD_fail code (run_builtin_rules code cfg) data raw fs _
      hp' hne rfl harr] at h
    exact absurd h (by simp)

/-- Raw model reply of the C3 witness: both fields present, a truthy model
code. -/
def c3wraw : String := "\x7b\"suggestions\": [], \"optimized_code\": \"int z;\"\x7d"

/-- Provider payload of the C3 witness. -/
def c3wdata : Json := .obj [("content", .str c3wraw)]

/-- Parsed object of the C3 witness reply. -/
def c3wfs : List (String × Json) :=
  [("suggestions", .arr []), ("optimized_code", .str "int z;")]

/-- Success response of the handler at the C3 witness input. -/
def c3wresp : RefactorResponse :=
  { ok := true, suggestions := some [],
    optimized_code := some (.str "int z;"), rules_findings := [] }

/-- Witness for the amended C3: on a concrete success-path request the
returned `optimized_code` is exactly the model-provided value (here truthy,
so no fallback), obtained through the success-path conjunct of the amended
theorem with every hypothesis discharged concretely. -/
theorem C3_witness :
    c3wresp.optimized_code =
      some (pyOr ((pyGet c3wfs "optimized_code").getD (.str "")) (.str "int x;")) :=
  (C3_optimized_code_presence "int x;" {} (some "k") (.ok c3wdata) c3wresp
      rfl).2.2.1 c3wdata c3wraw c3wfs rfl rfl rfl rfl (List.cons_ne_nil _ _)

/-- Raw text of the C5 counterexample: a well-formed object whose
`suggestions` value has the wrong shape. -/
def c5raw : String := "\x7b\"suggestions\": 7, \"optimized_code\": \"x\"\x7d"

/-- Counterexample for C5: the structured parse of `c5raw` succeeds, yet the
request raises a `TypeError` instead of defaulting the wrongly-shaped
`suggestions` value to the empty sequence — `parsed.get("suggestions", [])`
defaults only when the key is absent and the list merge then fails. -/
theorem C5_counterexample :
    extract_model_json c5raw =
      some (.obj [("suggestions", .num 7), ("optimized_code", .str "x")]) ∧
    refactor "int x;" {} (some "k") (.ok (.obj [("content", .str c5raw)])) =
      .error (.typeError "can only concatenate list to list") :=
  ⟨rfl, rfl⟩

/-- Amended C5: when the structured parse of the model text succeeds, a falsy
result (such as the empty object) is treated as extraction failure; for a
truthy object, `suggestions` defaults to the empty sequence only when the key
is absent and `optimized_code` defaults to the empty string only when its key
is absent (falling back to the input code), while a present non-list
`suggestions` value is propagated into the merge, which raises a request
error. -/
theorem C5_parsed_field_reads (code : String) (cfg : RuleConfig)
    (key : Option String) (data : Json) (raw : String)
    (hk : optStrTruthy key = true)
    (hc : get_content data = .ok (.str raw)) :
    (∀ p, extract_model_json raw = some p → pyTruthy p = false →
      refactor code cfg key (.ok data) = .ok
        { ok := false, error := some "Model JSON parse failed",
          rules_findings := run_builtin_rules code cfg,
          model_text := some (String.mk (cleanedC raw.data)), raw := some data }) ∧
    (∀ fs, extract_model_json raw = some (.obj fs) → fs ≠ [] →
      pyGet fs "suggestions" = none →
      refactor code cfg key (.ok data) = .ok
        { ok := true,
          suggestions := some ((run_builtin_rules code cfg).map
            (fun f => Json.str (renderFinding f))),
          optimized_code := some
            (pyOr ((pyGet fs "optimized_code").getD (.str "")) (.str code)),
          rules_findings := run_builtin_rules code cfg }) ∧
    (∀ fs ss, extract_model_json raw = some (.obj fs) → fs ≠ [] →
      pyGet fs "suggestions" = some (.arr ss) →
      refactor code cfg key (.ok data) = .ok
        { ok := true,
          suggestions := some ((run_builtin_rules code cfg).map
            (fun f => Json.str (renderFinding f)) ++ ss),
          optimized_code := some
            (pyOr ((pyGet fs "optimized_code").getD (.str "")) (.str code)),
          rules_findings := run_builtin_rules code cfg }) ∧
    (∀ fs v, extract_model_json raw = some (.obj fs) → fs ≠ [] →
      pyGet fs "suggestions" = some v → (∀ ss, v ≠ .arr ss) →
      refactor code cfg key (.ok data) = .error
        (.typeError "can only concatenate list to list")) := by
  rw [refactor_content_phase code cfg key data raw hk hc]
  refine ⟨?_, ?_, ?_, ?_⟩
  · intro p hp hpt
    exact model_phase_falsy code _ data raw p hp hpt
  · intro fs hp hne hsg
    have h := model_phase_success code (run_builtin_rules code cfg) data raw fs []
      hp hne (by rw [hsg]; rfl)
    rw [h]
    simp
  · intro fs ss hp hne hsg
    exact model_phase_success code _ data raw fs ss hp hne (by rw [hsg]; rfl)
  · intro fs v hp hne hsg hv
    exact model_phase_type_error code _ data raw fs v hp hne hsg hv

/-- Raw text of the C5 witness: `suggestions` absent, `optimized_code`
present. -/
def c5wraw : String := "\x7b\"optimized_code\": \"int y;\"\x7d"

/-- Witness for the amended C5: with `suggestions` absent the merge uses the
empty default, and the present model code is adopted. -/
theorem C5_witness :
    refactor "int x;" {} (some "k") (.ok (.obj [("content", .str c5wraw)])) = .ok
      { ok := true, suggestions := some [],
        optimized_code := some (.str "int y;"), rules_findings := [] } :=
  ((C5_parsed_field_reads "int x;" {} (some "k") (.obj [("content", .str c5wraw)])
      c5wraw rfl rfl).2.1 [("optimized_code", .str "int y;")] rfl
    (List.cons_ne_nil _ _) rfl).trans (by rfl)

/-- Claim C6: when a model reply extracts to an object with a sequence of
suggestion strings, the final suggestions are the rendered rule findings (in
engine order) followed by the model suggestions in their original order, and
the final `optimized_code` is the model code, or the original input when the
model code is the empty string (also when the key is absent, via the
empty-string default). -/
theorem C6_success_merge (code : String) (cfg : RuleConfig)
    (key : Option String) (data : Json) (raw : String)
    (fs : List (String × Json)) (strs : List String) (mc : String)
    (hk : optStrTruthy key = true)
    (hc : get_content data = .ok (.str raw))
    (hp : extract_model_json raw = some (.obj fs))
    (hsg : pyGet fs "suggestions" = some (.arr (strs.map Json.str)))
    (hoc : (pyGet fs "optimized_code").getD (.str "") = .str mc) :
    refactor code cfg key (.ok data) = .ok
      { ok := true,
        suggestions := some ((run_builtin_rules code cfg).map
          (fun f => Json.str ("[rule:" ++ f.rule ++ "] " ++ f.message)) ++
          strs.map Json.str),
        optimized_code := some (.str (if mc = "" then code else mc)),
        rules_findings := run_builtin_rules code cfg } := by
  have hne : fs ≠ [] := by
    intro hnil
    rw [hnil] at hsg
    simp [pyGet] at hsg
  rw [refactor_content_phase code cfg key data raw hk hc]
  rw [model_phase_success code (run_builtin_rules code cfg) data raw fs
    (strs.map Json.str) hp hne (by rw [hsg]; rfl)]
  rw [hoc]
  have hor : pyOr (.str mc) (.str code) = .str (if mc = "" then code else mc) := by
    by_cases hm : mc = ""
    · subst hm; rfl
    · unfold pyOr
      have : pyTruthy (.str mc) = true := by
        simp [pyTruthy]
        exact hm
      rw [this]
      simp [hm]
  rw [hor]
  simp [renderFinding]

/-- Raw model reply of the C6 witness. -/
def c6raw : String :=
  "\x7b\"suggestions\": [\"use views\"], \"optimized_code\": \"int y;\"\x7d"

/-- Witness for C6 at a concrete successful reply. -/
theorem C6_witness :
    refactor "int x;" {} (some "k") (.ok (.obj [("content", .str c6raw)])) = .ok
      { ok := true, suggestions := some [.str "use views"],
        optimized_code := some (.str "int y;"), rules_findings := [] } :=
  (C6_success_merge "int x;" {} (some "k") (.obj [("content", .str c6raw)]) c6raw
      [("suggestions", .arr [.str "use views"]), ("optimized_code", .str "int y;")]
      ["use views"] "int y;" rfl rfl rfl rfl rfl).trans (by rfl)

/-- Last element of an append with a non-empty right part. -/
lemma getLast?_append_right (l₁ l₂ : List Char) (h : l₂ ≠ []) :
    (l₁ ++ l₂).getLast? = l₂.getLast? := by
  induction l₁ with
  | nil => rfl
  | cons x t ih =>
    rw [List.cons_append]
    cases htl : t ++ l₂ with
    | nil =>
      rcases List.append_eq_nil.mp htl with ⟨-, h2⟩
      exact absurd h2 h
    | cons b bs =>
      calc (x :: b :: bs).getLast? = (b :: bs).getLast? := List.getLast?_cons_cons
        _ = (t ++ l₂).getLast? := by rw [htl]
        _ = l₂.getLast? := ih

/-- A cleaning no-op: stripped text that does not start with a fence is
returned unchanged. -/
lemma cleanedC_eq_self (s : List Char) (hstrip : pyStripC s = s)
    (hnf : prefixB fenceC s = false) : cleanedC s = s := by
  simp only [cleanedC, hstrip, hnf, Bool.false_eq_true, if_false]

/-- Extraction lemma for prose-wrapped objects: with leading prose
`Here is the result:` and trailing prose `Thanks!`, the two-tier parse
recovers exactly the braced object between them. -/
lemma extract_prose_wrapped (mid : List Char) (v : Json)
    (hload : json_loadsC ('{' :: (mid ++ ['}'])) = some v) :
    parseModelC (cleanedC ("Here is the result:\n".data ++
      '{' :: (mid ++ '}' :: "\nThanks!".data))) = some v := by
  have hlastL : ("Here is the result:\n".data ++
      '{' :: (mid ++ '}' :: "\nThanks!".data)).getLast? = some '!' := by
    rw [getLast?_append_right _ _ (by simp)]
    rw [show ('{' :: (mid ++ '}' :: "\nThanks!".data)) =
      ('{' :: mid) ++ ('}' :: "\nThanks!".data) from rfl]
    rw [getLast?_append_right _ _ (by simp)]
    rfl
  have hstripPy : pyStripC ("Here is the result:\n".data ++
      '{' :: (mid ++ '}' :: "\nThanks!".data)) =
      "Here is the result:\n".data ++ '{' :: (mid ++ '}' :: "\nThanks!".data) := by
    apply stripEnds_eq_self
    · intro c hc
      rw [show ("Here is the result:\n".data ++
        '{' :: (mid ++ '}' :: "\nThanks!".data)).head? = some 'H' from rfl] at hc
      cases hc
      decide
    · intro c hc
      rw [hlastL] at hc
      cases hc
      decide
  have htrim : stripEnds jsonWs ("Here is the result:\n".data ++
      '{' :: (mid ++ '}' :: "\nThanks!".data)) =
      "Here is the result:\n".data ++ '{' :: (mid ++ '}' :: "\nThanks!".data) := by
    apply stripEnds_eq_self
    · intro c hc
      rw [show ("Here is the result:\n".data ++
        '{' :: (mid ++ '}' :: "\nThanks!".data)).head? = some 'H' from rfl] at hc
      cases hc
      decide
    · intro c hc
      rw [hlastL] at hc
      cases hc
      decide
  have hload_none : json_loadsC ("Here is the result:\n".data ++
      '{' :: (mid ++ '}' :: "\nThanks!".data)) = none := by
    unfold json_loadsC
    rw [htrim]
    rfl
  have hclean : cleanedC ("Here is the result:\n".data ++
      '{' :: (mid ++ '}' :: "\nThanks!".data)) =
      "Here is the result:\n".data ++ '{' :: (mid ++ '}' :: "\nThanks!".data) :=
    cleanedC_eq_self _ hstripPy (by rfl)
  have hfind : findCharIdx '{' ("Here is the result:\n".data ++
      '{' :: (mid ++ '}' :: "\nThanks!".data)) = some 20 := by
    rw [findCharIdx_append '{' _ _ (by decide)]
    simp [findCharIdx]
  have hrev : ("Here is the result:\n".data ++
      '{' :: (mid ++ '}' :: "\nThanks!".data)).reverse =
      "\nThanks!".data.reverse ++
        '}' :: (mid.reverse ++ '{' :: "Here is the result:\n".data.reverse) := by
    simp [List.reverse_append, List.append_assoc]
  have hlen : ("Here is the result:\n".data ++
      '{' :: (mid ++ '}' :: "\nThanks!".data)).length = mid.length + 30 := by
    simp [List.length_append]
  have hrfind : rfindCharIdx '}' ("Here is the result:\n".data ++
      '{' :: (mid ++ '}' :: "\nThanks!".data)) = some (mid.length + 21) := by
    unfold rfindCharIdx
    rw [hrev, findCharIdx_append '}' _ _ (by decide)]
    rw [show findCharIdx '}' ('}' :: (mid.reverse ++ '{' ::
      "Here is the result:\n".data.reverse)) = some 0 by simp [findCharIdx]]
    rw [hlen]
    simp
  have hdrop : ("Here is the result:\n".data ++
      '{' :: (mid ++ '}' :: "\nThanks!".data)).drop 20 =
      '{' :: (mid ++ '}' :: "\nThanks!".data) := by
    rw [show (20 : Nat) = "Here is the result:\n".data.length from rfl, List.drop_left]
  have hslice : (("Here is the result:\n".data ++
      '{' :: (mid ++ '}' :: "\nThanks!".data)).drop 20).take (mid.length + 21 + 1 - 20) =
      '{' :: (mid ++ ['}']) := by
    rw [hdrop]
    rw [show mid.length + 21 + 1 - 20 = mid.length + 1 + 1 from by omega]
    rw [List.take_succ_cons]
    rw [show mid ++ '}' :: "\nThanks!".data = (mid ++ ['}']) ++ "\nThanks!".data from by simp]
    rw [List.take_left' (by simp)]
  rw [hclean]
  unfold parseModelC
  rw [hload_none]
  simp only
  rw [hfind, hrfind]
  simp only
  rw [if_pos (by omega)]
  rw [hslice]
  exact hload

/-- Claim C7: when the direct structured parse of the cleaned text fails, the
extractor attempts exactly the inclusive slice from the first `{` to the last
`}` (and reports no structured result, rather than raising, when that also
fails or no such slice exists); in particular, prose-wrapped objects of the
shape `Here is the result:\n{...}\nThanks!` extract to exactly the inner
object. -/
theorem C7_brace_slice_fallback :
    (∀ t : String, json_loadsC (cleanedC t.data) = none →
      extract_model_json t =
        match findCharIdx '{' (cleanedC t.data), rfindCharIdx '}' (cleanedC t.data) with
        | some s, some e =>
          if s < e then json_loadsC (((cleanedC t.data).drop s).take (e + 1 - s))
          else none
        | _, _ => none) ∧
    (∀ (mid : List Char) (v : Json),
      json_loadsC ('{' :: (mid ++ ['}'])) = some v →
      extract_model_json (String.mk ("Here is the result:\n".data ++
        '{' :: (mid ++ '}' :: "\nThanks!".data))) = some v) := by
  constructor
  · intro t hfail
    simp only [extract_model_json, parseModelC, hfail]
  · intro mid v hload
    exact extract_prose_wrapped mid v hload

/-- Witness for C7: a plain non-JSON text extracts to nothing, and a concrete
prose-wrapped object extracts to exactly the inner object. -/
theorem C7_witness :
    extract_model_json "xyz" = none ∧
    extract_model_json (String.mk ("Here is the result:\n".data ++
      '{' :: ("\"a\": 1".data ++ '}' :: "\nThanks!".data))) =
      some (.obj [("a", .num 1)]) := by
  constructor
  · exact (C7_brace_slice_fallback.1 "xyz" (by rfl)).trans (by rfl)
  · exact C7_brace_slice_fallback.2 "\"a\": 1".data (.obj [("a", .num 1)]) (by rfl)

/-- Unfolding step of `splitSep` with remaining splits. -/
lemma splitSep_succ (pat : List Char) (m : Nat) (s : List Char) :
    splitSep pat (m + 1) s =
      match findSubIdx pat s with
      | none => [s]
      | some i => s.take i :: splitSep pat m (s.drop (i + pat.length)) := rfl

/-- A non-empty pattern is found at position zero of itself plus anything. -/
lemma findSubIdx_prefix_self (pat t : List Char) (hne : pat ≠ []) :
    findSubIdx pat (pat ++ t) = some 0 := by
  cases pat with
  | nil => exact absurd rfl hne
  | cons p ps =>
    rw [List.cons_append, findSubIdx]
    rw [show prefixB (p :: ps) (p :: (ps ++ t)) = true from by
      rw [← List.cons_append]; exact prefixB_append_self (p :: ps) t]
    rfl

/-- Splitting a well-formed fenced wrapper at the fence marker, twice: the
parts are the empty prefix, the inner block, and the empty suffix. -/
lemma splitSep_fence_wrap (body : List Char)
    (h : containsSubB fenceC body = false) (hlast : body.getLast? = some '\n') :
    splitSep fenceC 2 (fenceC ++ (body ++ fenceC)) = [[], body, []] := by
  rw [show (2 : Nat) = 1 + 1 from rfl, splitSep_succ]
  rw [findSubIdx_prefix_self fenceC _ (by simp [fenceC])]
  show [] :: splitSep fenceC 1 (body ++ fenceC) = [[], body, []]
  rw [show (1 : Nat) = 0 + 1 from rfl, splitSep_succ]
  rw [findSubIdx_fence_append body h hlast]
  show [] :: (body ++ fenceC).take body.length ::
    splitSep fenceC 0 ((body ++ fenceC).drop (body.length + fenceC.length)) = [[], body, []]
  rw [List.take_left]
  rw [List.drop_eq_nil_of_le (by simp)]
  rfl

/-- Counterexample text for C8: a serialized object whose suggestion string
itself contains a fence marker. -/
def c8S : String := "\x7b\"suggestions\": [\"a```b\"], \"optimized_code\": \"x\"\x7d"

/-- Counterexample for C8: unwrapped, `c8S` extracts to its object; wrapped
in a fence with a language-tag line, the fence split cuts at the marker
inside the suggestion string and extraction fails, so the two results are
not identical. -/
theorem C8_counterexample :
    extract_model_json c8S =
      some (.obj [("suggestions", .arr [.str "a```b"]),
                  ("optimized_code", .str "x")]) ∧
    extract_model_json ("```json\n" ++ c8S ++ "\n```") = none :=
  ⟨rfl, rfl⟩

/-- Amended C8: wrapping a serialized `{suggestions, optimized_code}` text in
a fence marker with a language-tag line leaves the extraction result
unchanged, provided neither the tag line nor the serialized text contains a
fence marker of its own (and the tag has no newline).  The counterexample
shows the restriction is needed. -/
theorem C8_fenced_extraction (tag : List Char) (S : String) (v : Json)
    (htag : '\n' ∉ tag)
    (hnf : containsSubB fenceC (tag ++ '\n' :: (S.data ++ ['\n'])) = false)
    (hS : json_loads S = some v)
    (h1 : S.data.head? = some '{')
    (h2 : S.data.getLast? = some '}') :
    extract_model_json
        (String.mk (fenceC ++ ((tag ++ '\n' :: (S.data ++ ['\n'])) ++ fenceC))) =
      extract_model_json S := by
  have hblast : (tag ++ '\n' :: (S.data ++ ['\n'])).getLast? = some '\n' := by
    rw [getLast?_append_right _ _ (by simp)]
    rw [show ('\n' :: (S.data ++ ['\n'])) = ('\n' :: S.data) ++ ['\n'] from rfl]
    exact List.getLast?_concat _
  have hstripW : pyStripC (fenceC ++ ((tag ++ '\n' :: (S.data ++ ['\n'])) ++ fenceC)) =
      fenceC ++ ((tag ++ '\n' :: (S.data ++ ['\n'])) ++ fenceC) := by
    apply stripEnds_eq_self
    · intro c hc
      rw [show (fenceC ++ ((tag ++ '\n' :: (S.data ++ ['\n'])) ++ fenceC)).head? =
        some '`' from rfl] at hc
      cases hc
      decide
    · intro c hc
      rw [getLast?_append_right _ _ (by
        intro hnil
        rcases List.append_eq_nil.mp hnil with ⟨-, h3⟩
        simp [fenceC] at h3)] at hc
      rw [getLast?_append_right _ _ (by simp [fenceC])] at hc
      rw [show fenceC.getLast? = some '`' from rfl] at hc
      cases hc
      decide
  have hsplitNl : splitSep ['\n'] 1 (tag ++ '\n' :: (S.data ++ ['\n'])) =
      [tag, S.data ++ ['\n']] := by
    rw [show (1 : Nat) = 0 + 1 from rfl, splitSep_succ]
    rw [findSubIdx_single_append '\n' tag (S.data ++ ['\n']) htag]
    show (tag ++ '\n' :: (S.data ++ ['\n'])).take tag.length ::
      splitSep ['\n'] 0 ((tag ++ '\n' :: (S.data ++ ['\n'])).drop (tag.length + 1)) =
      [tag, S.data ++ ['\n']]
    rw [List.take_left]
    rw [show tag ++ '\n' :: (S.data ++ ['\n']) =
      (tag ++ ['\n']) ++ (S.data ++ ['\n']) from by simp]
    rw [List.drop_left' (by simp)]
    rfl
  have hcleanW : cleanedC (fenceC ++ ((tag ++ '\n' :: (S.data ++ ['\n'])) ++ fenceC)) =
      S.data ++ ['\n'] := by
    simp only [cleanedC, hstripW]
    rw [prefixB_append_self fenceC _]
    simp only [if_true]
    rw [splitSep_fence_wrap _ hnf hblast]
    simp only []
    rw [show (tag ++ '\n' :: (S.data ++ ['\n'])).contains '\n' = true from
      List.elem_eq_true_of_mem (by simp)]
    simp only [if_true]
    rw [hsplitNl]
  have hcleanS : cleanedC S.data = S.data := by
    obtain ⟨t, ht⟩ : ∃ t, S.data = '{' :: t := by
      cases hsd : S.data with
      | nil => rw [hsd] at h1; simp at h1
      | cons a u =>
        rw [hsd] at h1
        simp at h1
        exact ⟨u, by rw [h1]⟩
    apply cleanedC_eq_self
    · apply stripEnds_eq_self
      · intro c hc; rw [h1] at hc; cases hc; decide
      · intro c hc; rw [h2] at hc; cases hc; decide
    · rw [ht]; rfl
  show parseModelC (cleanedC (fenceC ++ ((tag ++ '\n' :: (S.data ++ ['\n'])) ++ fenceC))) =
    parseModelC (cleanedC S.data)
  rw [hcleanW, hcleanS]
  unfold parseModelC
  rw [json_loadsC_append_nl]
  rw [show json_loadsC S.data = some v from hS]

/-- Serialized text of the C8 witness. -/
def c8wS : String := "\x7b\"suggestions\": [\"ok\"], \"optimized_code\": \"y\"\x7d"

/-- Witness for the amended C8 at a concrete tag and serialized object. -/
theorem C8_witness :
    extract_model_json
        (String.mk (fenceC ++ (("json".data ++ '\n' :: (c8wS.data ++ ['\n'])) ++ fenceC))) =
      extract_model_json c8wS :=
  C8_fenced_extraction "json".data c8wS
    (.obj [("suggestions", .arr [.str "ok"]), ("optimized_code", .str "y")])
    (by decide) (by decide) rfl rfl rfl

/-- Every span reported by the scan is a successful match at its start. -/
lemma findFrom_mem_match (toks : List Tok) (s : List Char) :
    ∀ fuel pos a b, (a, b) ∈ findFrom toks s fuel pos →
      (matchAtPos toks s a).isSome = true := by
  intro fuel
  induction fuel with
  | zero => intro pos a b h; simp [findFrom] at h
  | succ n ih =>
    intro pos a b h
    rw [findFrom] at h
    by_cases hle : pos ≤ s.length
    · rw [if_pos hle] at h
      cases hm : matchAtPos toks s pos with
      | some e =>
        rw [hm] at h
        rcases List.mem_cons.mp h with heq | hmem
        · have ha : a = pos := by
            simpa using congrArg Prod.fst heq
          rw [ha, hm]
          rfl
        · by_cases hlt : pos < e
          · rw [if_pos hlt] at hmem; exact ih e a b hmem
          · rw [if_neg hlt] at hmem; exact ih (pos + 1) a b hmem
      | none =>
        rw [hm] at h
        exact ih (pos + 1) a b h
    · rw [if_neg hle] at h; simp at h

/-- The scan is non-empty whenever some position at or after the scan start
matches, given that the pattern cannot match the empty input (as all five
rule patterns begin with a literal). -/
lemma findFrom_ne_nil (toks : List Tok) (s : List Char)
    (h0 : matchToks toks [] = none) :
    ∀ fuel pos i, pos ≤ i → (matchAtPos toks s i).isSome = true →
      s.length + 1 - pos ≤ fuel → findFrom toks s fuel pos ≠ [] := by
  have hle_of : ∀ i, (matchAtPos toks s i).isSome = true → i ≤ s.length := by
    intro i hi
    by_contra hgt
    push_neg at hgt
    have hd : s.drop i = [] := List.drop_eq_nil_of_le (le_of_lt hgt)
    rw [matchAtPos, hd, h0] at hi
    simp at hi
  intro fuel
  induction fuel with
  | zero =>
    intro pos i hpi hi hfuel
    have := hle_of i hi
    omega
  | succ n ih =>
    intro pos i hpi hi hfuel
    rw [findFrom]
    have hposle : pos ≤ s.length := le_trans hpi (hle_of i hi)
    rw [if_pos hposle]
    cases hm : matchAtPos toks s pos with
    | some e => simp
    | none =>
      have hne : pos ≠ i := by
        intro heq
        rw [← heq, hm] at hi
        simp at hi
      exact ih (pos + 1) i (by omega) hi (by omega)

/-- Code of the C9 counterexample and witness. -/
def c9code : String := "for (int i = 0; i < v.size(); i++) sum += v[i];"

/-- Configuration of the C9 counterexample: the rule toggle on, the style
master switch off. -/
def c9cfg : RuleConfig := { enable_style_rules := false }

/-- Counterexample for C9: the claim quantifies over every config with
`prefer_range_for` enabled, but the code also gates the rule on
`enable_style_rules`; with the master switch off and the rule toggle on, a
matching code text produces no `prefer_range_for` finding. -/
theorem C9_counterexample :
    c9cfg.prefer_range_for = true ∧
    (matchAtPos reRangeFor c9code.data 0).isSome = true ∧
    (run_builtin_rules c9code c9cfg).filter
      (fun f => f.rule == "prefer_range_for") = [] :=
  ⟨rfl, rfl, rfl⟩

/-- Amended C9: for every code text matching the counted-loop pattern and
every config with both `enable_style_rules` and `prefer_range_for` enabled,
the engine output contains a `prefer_range_for` finding whose line number is
1 plus the count of newline characters before the start offset of a match —
the 1-based line of its `for` keyword. -/
theorem C9_prefer_range_for_line (code : String) (cfg : RuleConfig)
    (hs : cfg.enable_style_rules = true) (hr : cfg.prefer_range_for = true)
    (hm : ∃ i, (matchAtPos reRangeFor code.data i).isSome = true) :
    ∃ s, (matchAtPos reRangeFor code.data s).isSome = true ∧
      ({ rule := "prefer_range_for", message := msgRangeFor,
         line := some ((code.data.take s).count '\n' + 1),
         severity := "info" } : RuleResult) ∈ run_builtin_rules code cfg := by
  obtain ⟨i, hi⟩ := hm
  have h0 : matchToks reRangeFor [] = none := rfl
  have hne := findFrom_ne_nil reRangeFor code.data h0 (code.data.length + 1) 0 i
    (Nat.zero_le i) hi (by omega)
  obtain ⟨⟨a, b⟩, hmem⟩ := List.exists_mem_of_ne_nil _ hne
  refine ⟨a, findFrom_mem_match reRangeFor code.data _ 0 a b hmem, ?_⟩
  unfold run_builtin_rules
  rw [hs, hr]
  simp only [Bool.and_self, if_true]
  apply List.mem_append_left
  apply List.mem_append_left
  apply List.mem_append_left
  apply List.mem_append_left
  exact List.mem_map_of_mem _ hmem

/-- Witness for the amended C9: the pattern matches at offset 0 of a concrete
single-line loop, so the default config yields the finding at line 1. -/
theorem C9_witness :
    ∃ s, (matchAtPos reRangeFor c9code.data s).isSome = true ∧
      ({ rule := "prefer_range_for", message := msgRangeFor,
         line := some ((c9code.data.take s).count '\n' + 1),
         severity := "info" } : RuleResult) ∈ run_builtin_rules c9code {} :=
  C9_prefer_range_for_line c9code {} rfl rfl ⟨0, rfl⟩

/-- Findings mapped from match spans with a fixed non-`vector_reserve` rule id
contribute nothing to the `vector_reserve` filter. -/
lemma filter_vr_map_nil (l : List (Nat × Nat)) (g : Nat × Nat → RuleResult)
    (hg : ∀ m, (g m).rule ≠ "vector_reserve") :
    (l.map g).filter (fun f => f.rule == "vector_reserve") = [] := by
  rw [List.filter_eq_nil_iff]
  intro a ha
  obtain ⟨m, -, rfl⟩ := List.mem_map.mp ha
  simp [hg m]

/-- Guarded mapped blocks contribute nothing to the `vector_reserve` filter. -/
lemma filter_vr_block (c : Bool) (l : List (Nat × Nat)) (g : Nat × Nat → RuleResult)
    (hg : ∀ m, (g m).rule ≠ "vector_reserve") :
    ((if c then l.map g else []).filter (fun f => f.rule == "vector_reserve")) = [] := by
  cases c
  · rfl
  · exact filter_vr_map_nil l g hg

/-- Members of a guarded mapped block are in the image of the map. -/
lemma mem_ite_map (f : RuleResult) (c : Bool) (l : List (Nat × Nat))
    (g : Nat × Nat → RuleResult) (h : f ∈ (if c then l.map g else [])) :
    ∃ m, f = g m := by
  cases c
  · simp at h
  · obtain ⟨m, -, rfl⟩ := List.mem_map.mp h
    exact ⟨m, rfl⟩

/-- Claim C10: the engine emits at most one `vector_reserve` finding per
evaluation, and any `vector_reserve` finding has no line number and severity
`info`, for every input and config — the rule is a single whole-document
co-occurrence check, not a per-match emitter. -/
theorem C10_vector_reserve_shape (code : String) (cfg : RuleConfig) :
    ((run_builtin_rules code cfg).filter
      (fun f => f.rule == "vector_reserve")).length ≤ 1 ∧
    ∀ f ∈ run_builtin_rules code cfg, f.rule = "vector_reserve" →
      f.line = none ∧ f.severity = "info" := by
  constructor
  · unfold run_builtin_rules
    rw [List.filter_append, List.filter_append, List.filter_append,
      List.filter_append]
    rw [filter_vr_block _ _ _ (fun m => by
        show ("prefer_range_for" : String) ≠ "vector_reserve"
        decide),
      filter_vr_block _ _ _ (fun m => by
        show ("nested_loops" : String) ≠ "vector_reserve"
        decide),
      filter_vr_block _ _ _ (fun m => by
        show ("prefer_unordered_map_for_count" : String) ≠ "vector_reserve"
        decide),
      filter_vr_block _ _ _ (fun m => by
        show ("emplace_back" : String) ≠ "vector_reserve"
        decide)]
    by_cases h4 : (cfg.enable_style_rules && cfg.suggest_reserve_on_vectors) = true
    · rw [if_pos h4]
      by_cases h4b : (reSearch reVecDecl code.data && reSearch rePushLoop code.data) = true
      · rw [if_pos h4b]; simp
      · rw [if_neg h4b]; simp
    · rw [if_neg h4]; simp
  · intro f hf hrule
    unfold run_builtin_rules at hf
    rcases List.mem_append.mp hf with hf | hf
    rotate_left
    · obtain ⟨m, rfl⟩ := mem_ite_map f _ _ _ hf
      exact absurd hrule (by
        show ("emplace_back" : String) ≠ "vector_reserve"
        decide)
    rcases List.mem_append.mp hf with hf | hf
    rotate_left
    · by_cases h4 : (cfg.enable_style_rules && cfg.suggest_reserve_on_vectors) = true
      · rw [if_pos h4] at hf
        by_cases h4b : (reSearch reVecDecl code.data && reSearch rePushLoop code.data) = true
        · rw [if_pos h4b] at hf
          rcases List.mem_singleton.mp hf with rfl
          exact ⟨rfl, rfl⟩
        · rw [if_neg h4b] at hf; simp at hf
      · rw [if_neg h4] at hf; simp at hf
    rcases List.mem_append.mp hf with hf | hf
    rotate_left
    · obtain ⟨m, rfl⟩ := mem_ite_map f _ _ _ hf
      exact absurd hrule (by
        show ("prefer_unordered_map_for_count" : String) ≠ "vector_reserve"
        decide)
    rcases List.mem_append.mp hf with hf | hf
    · obtain ⟨m, rfl⟩ := mem_ite_map f _ _ _ hf
      exact absurd hrule (by
        show ("prefer_range_for" : String) ≠ "vector_reserve"
        decide)
    · obtain ⟨m, rfl⟩ := mem_ite_map f _ _ _ hf
      exact absurd hrule (by
        show ("nested_loops" : String) ≠ "vector_reserve"
        decide)

/-- Code of the C10 witness: a vector declaration plus an appending loop. -/
def c10code : String :=
  "std::vector<int> v;\nfor (int i = 0; i < n; i++) \x7b v.push_back(i); \x7d"

/-- Witness for C10 at a concrete input that does emit the finding. -/
theorem C10_witness :
    ((run_builtin_rules c10code {}).filter
      (fun f => f.rule == "vector_reserve")).length ≤ 1 ∧
    ∀ f ∈ run_builtin_rules c10code {}, f.rule = "vector_reserve" →
      f.line = none ∧ f.severity = "info" :=
  C10_vector_reserve_shape c10code {}
